import Mathlib

/-!
Verification of the COS storage adapter (`src/index.js`, second revision with
private-storage support, the revision the claims cite).

The JS source is shallowly embedded: strings are lists of characters,
promise-returning methods are pure functions over an explicit backend
(the wrapped COS SDK modelled as a request-to-result function), and each
claim of the specification is settled against these definitions.
-/

namespace GhostCOS

/-! ## Definitions: the shallow embedding of the source -/

/-- Strings of the JS source, modelled as lists of characters. -/
abbrev Str := List Char

/-- Embeds a Lean string literal as a character list. -/
def str (s : String) : Str := s.data

/-- JS `s.indexOf(c)` for a single character: index of the first occurrence,
-1 when absent. -/
def jsIndexOf (s : Str) (c : Char) : Int :=
  match s with
  | [] => -1
  | x :: xs =>
    if x = c then 0
    else if jsIndexOf xs c = -1 then -1 else jsIndexOf xs c + 1

/-- Source: `const stripLeadingSlash = s => s.indexOf('/') === 0 ? s.substring(1) : s`. -/
def stripLeadingSlash (s : Str) : Str :=
  if jsIndexOf s '/' = 0 then s.drop 1 else s

/-- Source: `const stripEndingSlash = s => s.indexOf('/') === (s.length - 1) ? s.substring(0, s.length - 1) : s`.
Note `indexOf` finds the FIRST slash, so the final character is removed only
when the first slash of the string is also its last character; JS
`s.length - 1` is -1 on the empty string, matching `indexOf`'s -1. -/
def stripEndingSlash (s : Str) : Str :=
  if jsIndexOf s '/' = (s.length : Int) - 1 then s.take (s.length - 1) else s

/-- JS `s.toLowerCase()`, for the ASCII alphabet the adapter's keys use. -/
def jsToLower (s : Str) : Str := s.map Char.toLower

/-- JS `s.startsWith(p)`. -/
def jsStartsWith (s p : Str) : Bool := p.isPrefixOf s

/-- JS `hay.includes(needle)`: substring containment. -/
def jsIncludes : Str → Str → Bool
  | [], needle => needle.isEmpty
  | hay@(_ :: t), needle => needle.isPrefixOf hay || jsIncludes t needle

/-- JS `s.trim()`. -/
def jsTrim (s : Str) : Str :=
  ((s.dropWhile Char.isWhitespace).reverse.dropWhile Char.isWhitespace).reverse

/-- JS `path.replace(/\/$|\\$/, '')` in `read`: removes one trailing slash or
backslash (the regex is not global and can only match at the last character). -/
def stripTrailingSlashOrBackslash (s : Str) : Str :=
  match s.getLast? with
  | some '/' => s.dropLast
  | some '\\' => s.dropLast
  | _ => s

/-- JS `s.split('/')`. -/
def splitSlash : Str → List Str
  | [] => [[]]
  | c :: rest =>
    if c = '/' then [] :: splitSlash rest
    else
      match splitSlash rest with
      | s :: ss => (c :: s) :: ss
      | [] => [[c]]

/-- JS `parts.join('/')`. -/
def joinSlash : List Str → Str
  | [] => []
  | [p] => p
  | p :: ps => p ++ '/' :: joinSlash ps

/-- JS regex word character `\w`, that is `[A-Za-z0-9_]`. -/
def wordChar (c : Char) : Bool := c.isAlphanum || c == '_'

/-- Component resolution of Node's `normalizeString`: empty and '.' components
vanish; '..' pops the previous component, or is kept when there is nothing to
pop and the path is relative (`allowAboveRoot`). -/
def normComps (allowAboveRoot : Bool) (acc : List Str) : List Str → List Str
  | [] => acc
  | c :: cs =>
    if c = [] ∨ c = str "." then normComps allowAboveRoot acc cs
    else if c = str ".." then
      match acc.getLast? with
      | some last =>
        if last = str ".." then normComps allowAboveRoot (acc ++ [c]) cs
        else normComps allowAboveRoot acc.dropLast cs
      | none =>
        if allowAboveRoot then normComps allowAboveRoot [c] cs
        else normComps allowAboveRoot acc cs
    else normComps allowAboveRoot (acc ++ [c]) cs

/-- The component-resolved interior of Node `path.posix.normalize`:
'..'-escapes are allowed exactly for relative paths. -/
def normBody (p : Str) : Str :=
  joinSlash (normComps (!(decide (p.head? = some '/'))) [] (splitSlash p))

/-- Node `path.posix.normalize`: resolve the components, then restore the
leading slash of an absolute path and the trailing slash of the input. -/
def posixNormalize (p : Str) : Str :=
  if p = [] then str "." else
  if normBody p = [] then
    (if p.head? = some '/' then str "/"
     else if p.getLast? = some '/' then str "./" else str ".")
  else
    (if p.head? = some '/' then ['/'] else []) ++
      normBody p ++ (if p.getLast? = some '/' then ['/'] else [])

/-- Node `path.posix.join` on the two segments the adapter passes. -/
def posixJoin (a b : Str) : Str :=
  if a = [] ∧ b = [] then str "."
  else if a = [] then posixNormalize b
  else if b = [] then posixNormalize a
  else posixNormalize (a ++ '/' :: b)

/-- The condition the source tests per '/'-separated part:
`part.includes('.jpg') || part.includes('.png') || part.includes('.gif')`. -/
def hasImageExt (part : Str) : Bool :=
  jsIncludes part (str ".jpg") || jsIncludes part (str ".png") || jsIncludes part (str ".gif")

/-- JS `part.replace(/\b\w/g, l => l.toUpperCase())`: uppercases every word
character standing at the start or right after a non-word character. Each
replacement keeps length and word-character status, so later matches are
found exactly as in the untouched input; `prevWord` carries whether the
previous character was a word character. -/
def upperAtBoundary (prevWord : Bool) : Str → Str
  | [] => []
  | c :: cs =>
    (if wordChar c && !prevWord then Char.toUpper c else c) ::
      upperAtBoundary (wordChar c) cs

/-- JS `part.replace(/[-_]\w/g, l => l.toUpperCase())`: a left-to-right scan for
a hyphen or underscore followed by a word character; the two-character match is
uppercased (fixing the '-' or '_' and uppercasing the word character) and the
scan resumes after the match. `avail` carries whether the previous character
was a hyphen or underscore not already consumed by a match. -/
def upperAfterDash (avail : Bool) : Str → Str
  | [] => []
  | c :: cs =>
    if avail && wordChar c then Char.toUpper c :: upperAfterDash false cs
    else c :: upperAfterDash (c == '-' || c == '_') cs

/-- Source: `Store.reconstructOriginalCase(lowercaseKey)`. Splits on '/',
passes every part that contains a recognized image extension through the two
replacement passes, and rejoins. -/
def reconstructOriginalCase (lowercaseKey : Str) : Str :=
  joinSlash ((splitSlash lowercaseKey).map fun part =>
    if hasImageExt part then upperAfterDash false (upperAtBoundary false part)
    else part)

/-- The two replacement passes fused into a single scan: a character is
uppercased exactly when it is a word character at a word boundary, or a word
character consumed by an unspent hyphen or underscore just before it. -/
def titleScan (prevWord avail : Bool) : Str → Str
  | [] => []
  | c :: cs =>
    (if wordChar c && (!prevWord || avail) then Char.toUpper c else c) ::
      titleScan (wordChar c) ((c == '-' || c == '_') && !(avail && wordChar c)) cs

/-- Request shape `{Bucket, Region, Key}` the adapter passes to `getObject`,
`headObject` and `deleteObject`. Bucket and Region may be undefined (`none`)
when the configuration left them unset. -/
structure KeyReq where
  Bucket : Option Str
  Region : Option Str
  Key : Str
  deriving DecidableEq

/-- Request shape for `putObject`. -/
structure PutObjectReq where
  Bucket : Option Str
  Region : Option Str
  Key : Str
  Body : Str
  ContentType : Str
  CacheControl : Str
  deriving DecidableEq

/-- Result of a successful `getObject`, as the callback receives it:
`data.headers` and `data.Body`, either of which may be absent. -/
structure GetObjectData where
  headers : Option (List (Str × Str))
  Body : Option Str
  deriving DecidableEq

/-- The wrapped COS SDK (spec section 6: an opaque RPC client). Every adapter
method builds a fresh client with the configured credentials and issues one of
these four calls; each either errors (the callback's `err`, carried as its
message) or succeeds. -/
structure COSBackend where
  getObject : KeyReq → Except Str GetObjectData
  headObject : KeyReq → Except Str Unit
  deleteObject : KeyReq → Except Str Unit
  putObject : PutObjectReq → Except Str Unit

/-- The adapter's configuration snapshot: the fields `Store.constructor`
assigns. `Option` models a JS value that may be `undefined`. -/
structure Store where
  secretId : Option Str
  secretKey : Option Str
  bucket : Option Str
  region : Option Str
  pathPrefix : Str
  domain : Str
  protocol : Str
  privateStorage : Bool
  debug : Bool
  host : Option Str
  deriving DecidableEq

/-- The `GHOST_STORAGE_ADAPTER_COS_*` environment variables; `none` = unset.
An environment variable, when set, is always a string. -/
structure EnvVars where
  secretId : Option Str := none
  secretKey : Option Str := none
  bucket : Option Str := none
  region : Option Str := none
  assetHost : Option Str := none
  pathPrefix : Option Str := none
  domain : Option Str := none
  protocol : Option Str := none
  privateStorage : Option Str := none
  debug : Option Str := none
  deriving DecidableEq

/-- The Ghost config object destructured by the constructor. `appId` is
destructured by the source but never used. The boolean-ish fields carry the
truthiness of whatever value the config held. -/
structure COSConfig where
  secretId : Option Str := none
  secretKey : Option Str := none
  assetHost : Option Str := none
  bucket : Option Str := none
  pathPrefix : Option Str := none
  region : Option Str := none
  appId : Option Str := none
  domain : Option Str := none
  protocol : Option Str := none
  privateStorage : Option Bool := none
  debug : Option Bool := none
  deriving DecidableEq

/-- JS `a || b` for a possibly-undefined string `a`: `a` when truthy (defined
and non-empty), else `b` unchanged. -/
def jsOrOpt (a b : Option Str) : Option Str :=
  match a with
  | some v => if v = [] then b else some v
  | none => b

/-- JS `a || dflt` collapsing a possibly-undefined string to a definite one. -/
def jsOrDefault (a : Option Str) (dflt : Str) : Str :=
  match a with
  | some v => if v = [] then dflt else v
  | none => dflt

/-- JS template-literal interpolation of a possibly-undefined value:
`undefined` prints as the string "undefined". -/
def renderJS (a : Option Str) : Str := a.getD (str "undefined")

/-- The asset-host value `env.ASSET_HOST || config.assetHost` both constructor
branches start from. -/
def resolveAssetHost (env : EnvVars) (cfg : COSConfig) : Option Str :=
  jsOrOpt env.assetHost cfg.assetHost

/-- The resolved `privateStorage` flag:
`env.PRIVATE_STORAGE === 'true' || config.privateStorage || false`. -/
def resolvePrivateStorage (env : EnvVars) (cfg : COSConfig) : Bool :=
  decide (env.privateStorage = some (str "true")) || cfg.privateStorage.getD false

/-- The public-mode computed host:
`domain ? protocol//domain : protocol//bucket.cos.region.myqcloud.com`
(an undefined bucket or region interpolates as "undefined"). -/
def computedHost (env : EnvVars) (cfg : COSConfig) : Str :=
  if jsOrDefault (jsOrOpt env.domain cfg.domain) [] ≠ [] then
    jsOrDefault (jsOrOpt env.protocol cfg.protocol) (str "https:") ++ str "//" ++
      jsOrDefault (jsOrOpt env.domain cfg.domain) []
  else
    jsOrDefault (jsOrOpt env.protocol cfg.protocol) (str "https:") ++ str "//" ++
      renderJS (jsOrOpt env.bucket cfg.bucket) ++ str ".cos." ++
      renderJS (jsOrOpt env.region cfg.region) ++ str ".myqcloud.com"

/-- The constructor's host assignment: in private mode
`customHost && customHost.trim() !== '' ? customHost : undefined`, otherwise
`customHost || computed`. -/
def mkHost (privateStorage : Bool) (explicitHost : Option Str) (computed : Str) :
    Option Str :=
  if privateStorage then
    match explicitHost with
    | some v => if v ≠ [] ∧ jsTrim v ≠ [] then some v else none
    | none => none
  else
    some (match explicitHost with
      | some v => if v = [] then computed else v
      | none => computed)

/-- `Store.constructor(config)`: each field is resolved from the named
environment variable, the config field, then a hardcoded default; `pathPrefix`
is stripped of one leading slash; the boolean flags compare the environment
variable against the literal string "true" and otherwise take the config
value's truthiness; the asset host is computed from `privateStorage` as the
source does (unset - not empty - in private mode without a non-blank explicit
host). -/
def mkStore (env : EnvVars) (cfg : COSConfig) : Store :=
  { secretId := jsOrOpt env.secretId cfg.secretId
    secretKey := jsOrOpt env.secretKey cfg.secretKey
    bucket := jsOrOpt env.bucket cfg.bucket
    region := jsOrOpt env.region cfg.region
    pathPrefix := stripLeadingSlash (jsOrDefault (jsOrOpt env.pathPrefix cfg.pathPrefix) [])
    domain := jsOrDefault (jsOrOpt env.domain cfg.domain) []
    protocol := jsOrDefault (jsOrOpt env.protocol cfg.protocol) (str "https:")
    privateStorage := resolvePrivateStorage env cfg
    debug := decide (env.debug = some (str "true")) || cfg.debug.getD false
    host := mkHost (resolvePrivateStorage env cfg) (resolveAssetHost env cfg)
      (computedHost env cfg) }

/-- The key `delete` computes: `stripLeadingSlash(join(directory, fileName))`
with `directory = targetDir || this.getTargetDir(this.pathPrefix)`;
`getTargetDirResult` stands in for the host-supplied `getTargetDir` value
(external, spec section 6), and the `||` fallback fires on a falsy (absent or
empty) argument. -/
def Store.deleteKey (getTargetDirResult fileName targetDir : Str) : Str :=
  stripLeadingSlash (posixJoin
    (if targetDir = [] then getTargetDirResult else targetDir) fileName)

/-- `Store.delete(fileName, targetDir)`. The promise always resolves to a
boolean: any error resolves `false`. -/
def Store.delete (st : Store) (be : COSBackend) (getTargetDirResult : Str)
    (fileName targetDir : Str) : Bool :=
  match be.deleteObject { Bucket := st.bucket, Region := st.region,
                          Key := Store.deleteKey getTargetDirResult fileName targetDir } with
  | .ok _ => true
  | .error _ => false

/-- The key `exists` computes: `stripLeadingSlash(join(targetDir, fileName))`. -/
def Store.existsKey (fileName targetDir : Str) : Str :=
  stripLeadingSlash (posixJoin targetDir fileName)

/-- `Store.exists(fileName, targetDir)`: a metadata-only lookup; the promise
always resolves to a boolean, any error (including not-found) resolving
`false`. -/
def Store.exists (st : Store) (be : COSBackend) (fileName targetDir : Str) : Bool :=
  match be.headObject { Bucket := st.bucket, Region := st.region,
                        Key := Store.existsKey fileName targetDir } with
  | .ok _ => true
  | .error _ => false

/-- Outcome of `Store.save`: the promise resolves with a URL or rejects with
the propagated error. -/
inductive SaveResult where
  | ok (url : Str)
  | err (e : Str)
  deriving DecidableEq

/-- The `putObject` request `save` issues once the unique file name and the
file bytes are there: key = lowercased name stripped of one leading slash,
the declared content type, and `CacheControl: max-age=${30 * 24 * 60 * 60}`. -/
def Store.savePut (st : Store) (fileName contentType body : Str) : PutObjectReq :=
  { Bucket := st.bucket
    Region := st.region
    Key := stripLeadingSlash (jsToLower fileName)
    Body := body
    ContentType := contentType
    CacheControl := str "max-age=" ++ (Nat.repr (30 * 24 * 60 * 60)).data }

/-- `Store.save(image, targetDir)`. `fileName` is the host-generated unique
name (`this.getUniqueFileName`, external); `fileRead` the outcome of
`readFileAsync(image.path)`; a read rejection reaches the final `.catch` and
rejects the save. On upload success the URL depends on
`privateStorage && host === undefined`. -/
def Store.save (st : Store) (be : COSBackend) (fileName : Str)
    (fileRead : Except Str Str) (contentType : Str) : SaveResult :=
  match fileRead with
  | .error e => .err e
  | .ok body =>
    let normalizedFileName := jsToLower fileName
    match be.putObject (st.savePut fileName contentType body) with
    | .error e => .err e
    | .ok _ =>
      if st.privateStorage = true ∧ st.host = none then
        .ok ('/' :: ((if st.pathPrefix ≠ [] then st.pathPrefix ++ ['/'] else []) ++
          normalizedFileName))
      else
        .ok (renderJS st.host ++ '/' :: normalizedFileName)

/-- Outcome of the `serve()` middleware on one request, and of
`sendFileResponse`. `refErrorNoBody` is the missing-body path: status 404 is
set and then the code calls `next`, which is not in scope inside
`sendFileResponse`, so a ReferenceError is thrown instead of an error being
forwarded. -/
inductive ServeOutcome where
  | sent (headersSet : List (Str × Str)) (body : Str)
  | refErrorNoBody (headersSet : List (Str × Str))
  | notFound (err : Str)
  deriving DecidableEq

/-- `Store.sendFileResponse(res, data)`: every header of `data.headers` is set
verbatim on the response; with a body the body is sent; without one, status
404 is set and the reference to the out-of-scope identifier `next` throws. -/
def sendFileResponse (data : GetObjectData) : ServeOutcome :=
  match data.Body with
  | some b => .sent (data.headers.getD []) b
  | none => .refErrorNoBody (data.headers.getD [])

/-- The primary key `serve` computes:
`stripLeadingSlash(stripEndingSlash(this.pathPrefix) + req.path)`. -/
def Store.serveKey (st : Store) (reqPath : Str) : Str :=
  stripLeadingSlash (stripEndingSlash st.pathPrefix ++ reqPath)

/-- `Store.tryKeyVariations(variations, index, callback)`: sequential
metadata-only lookups, first hit wins; `none` models
`callback(new Error('File not found'), null)` after exhaustion. The source
walks an index through the array; recursion on the list suffix is the same
traversal. -/
def Store.tryKeyVariations (st : Store) (be : COSBackend) : List Str → Option Str
  | [] => none
  | key :: rest =>
    match be.headObject { Bucket := st.bucket, Region := st.region, Key := key } with
    | .ok _ => some key
    | .error _ => st.tryKeyVariations be rest

/-- The middleware `Store.serve()` returns, applied to one request path. -/
def Store.serve (st : Store) (be : COSBackend) (reqPath : Str) : ServeOutcome :=
  let key := st.serveKey reqPath
  match be.getObject { Bucket := st.bucket, Region := st.region, Key := key } with
  | .ok data => sendFileResponse data
  | .error e =>
    match st.tryKeyVariations be [key, reconstructOriginalCase key] with
    | none => .notFound e
    | some foundKey =>
      match be.getObject { Bucket := st.bucket, Region := st.region, Key := foundKey } with
      | .error retryErr => .notFound retryErr
      | .ok retryData => sendFileResponse retryData

/-- Outcome of `Store.read(options)`. `typeError` is the crash inside the
promise executor when `this.host` is undefined and the path got past the
`startsWith` check (JS coerces the undefined host to the string "undefined"
there, and `this.host.length` then throws). -/
inductive ReadResult where
  | notManaged (msg : Str)
  | typeError
  | fetchErr (e : Str)
  | ok (body : Option Str)
  deriving DecidableEq

/-- `Store.read(options)` (second source version, which returns right after
rejecting an unmanaged path). -/
def Store.read (st : Store) (be : COSBackend) (optionsPath : Option Str) : ReadResult :=
  let path := stripTrailingSlashOrBackslash (optionsPath.getD [])
  match st.host with
  | none =>
    if jsStartsWith path (str "undefined") then .typeError
    else .notManaged (path ++ str " is not stored in COS")
  | some host =>
    if jsStartsWith path host then
      match be.getObject { Bucket := st.bucket, Region := st.region,
                           Key := stripLeadingSlash (path.drop host.length) } with
      | .error e => .fetchErr e
      | .ok data => .ok data.Body
    else .notManaged (path ++ str " is not stored in COS")

/-- Componentwise decidable equality for call results. -/
instance instDecEqExcept {ε α : Type} [DecidableEq ε] [DecidableEq α] :
    DecidableEq (Except ε α) := fun a b =>
  match a, b with
  | .ok x, .ok y =>
    if h : x = y then isTrue (by rw [h]) else isFalse (by intro hc; cases hc; exact h rfl)
  | .error x, .error y =>
    if h : x = y then isTrue (by rw [h]) else isFalse (by intro hc; cases hc; exact h rfl)
  | .ok _, .error _ => isFalse (fun hc => Except.noConfusion hc)
  | .error _, .ok _ => isFalse (fun hc => Except.noConfusion hc)

/-- Whether a metadata lookup of the request succeeds. -/
def COSBackend.headOk (be : COSBackend) (r : KeyReq) : Bool :=
  match be.headObject r with
  | .ok _ => true
  | .error _ => false

/-- A trailing slash genuinely stripped - what claim C1's words "pathPrefix
with trailing slash stripped" describe. -/
def trailingSlashStripped (s : Str) : Str :=
  if s.getLast? = some '/' then s.dropLast else s

/-- Claim C1's reading of the serve algorithm, a second definition following
the claim's words: identical control flow to `Store.serve`, with the primary
key built from the prefix with a genuine trailing-slash strip. -/
def serveClaimC1 (st : Store) (be : COSBackend) (reqPath : Str) : ServeOutcome :=
  let key := stripLeadingSlash (trailingSlashStripped st.pathPrefix ++ reqPath)
  match be.getObject { Bucket := st.bucket, Region := st.region, Key := key } with
  | .ok data => sendFileResponse data
  | .error e =>
    match st.tryKeyVariations be [key, reconstructOriginalCase key] with
    | none => .notFound e
    | some foundKey =>
      match be.getObject { Bucket := st.bucket, Region := st.region, Key := foundKey } with
      | .error retryErr => .notFound retryErr
      | .ok retryData => sendFileResponse retryData

/-- Backend for the C1 counterexample: exactly the object "a/b/x.jpg" exists,
for both the metadata lookup and the fetch. -/
def beC1 : COSBackend :=
  { getObject := fun r =>
      if r.Key = str "a/b/x.jpg" then .ok { headers := some [], Body := some (str "BODY") }
      else .error (str "NoSuchKey")
    headObject := fun r => if r.Key = str "a/b/x.jpg" then .ok () else .error (str "NoSuchKey")
    deleteObject := fun _ => .error (str "NoSuchKey")
    putObject := fun _ => .error (str "NoSuchKey") }

/-- Store for the C1 counterexample: pathPrefix "a/b/" has two slashes, so
`stripEndingSlash` (first-slash test) does not remove the trailing one. -/
def stC1 : Store :=
  mkStore {} { pathPrefix := some (str "a/b/"), bucket := some (str "b"), region := some (str "r") }

/-- Backend for the C1 witness: only the mixed-case variant "Img-X.Jpg"
exists. -/
def beW1 : COSBackend :=
  { getObject := fun r =>
      if r.Key = str "Img-X.Jpg" then .ok { headers := some [], Body := some (str "BODY") }
      else .error (str "NoSuchKey")
    headObject := fun r => if r.Key = str "Img-X.Jpg" then .ok () else .error (str "NoSuchKey")
    deleteObject := fun _ => .error (str "e")
    putObject := fun _ => .error (str "e") }

/-- Store for the C1 witness: empty prefix, public defaults. -/
def stW1 : Store := mkStore {} { bucket := some (str "b"), region := some (str "r") }

/-- The private-mode configuration of the spec's scenario: privateStorage on,
blank asset host. -/
def cfgPriv : COSConfig := { privateStorage := some true, assetHost := some (str "") }

/-- A backend whose uploads succeed. -/
def bePutOk : COSBackend :=
  { getObject := fun _ => .error (str "e")
    headObject := fun _ => .error (str "e")
    deleteObject := fun _ => .ok ()
    putObject := fun _ => .ok () }

/-- Claim C3's "absent or blank after trimming" test on the resolved explicit
asset host. -/
def blankHost (a : Option Str) : Bool :=
  match a with
  | none => true
  | some v => jsTrim v == []

/-- Claim C3's host policy, as the claim orders its cases: in private mode an
absent-or-blank explicit host leaves the host unset; otherwise a truthy
explicit host wins; otherwise the computed domain/bucket-region host. -/
def hostClaimC3 (env : EnvVars) (cfg : COSConfig) : Option Str :=
  if resolvePrivateStorage env cfg && blankHost (resolveAssetHost env cfg) then none
  else
    match resolveAssetHost env cfg with
    | some v => if v ≠ [] then some v else some (computedHost env cfg)
    | none => some (computedHost env cfg)

/-- The public-mode example of claim C3: bucket "b", region "ap-1", no domain,
no asset host. -/
def cfgC3ex : COSConfig := { bucket := some (str "b"), region := some (str "ap-1") }

/-- Claim C4's trigger: the segment ENDS in a recognized image extension. -/
def endsInImageExtC4 (p : Str) : Bool :=
  (str ".jpg").isSuffixOf p || (str ".png").isSuffixOf p || (str ".gif").isSuffixOf p

/-- Store for the C6 witness: public defaults resolve the host to the
bucket-region endpoint. -/
def stC6 : Store := mkStore {} { bucket := some (str "b"), region := some (str "r") }

/-- The store of the C8 scenario: private mode, blank asset host, no prefix. -/
def stC8 : Store := mkStore {} cfgPriv

/-- Claim C9's resolution policy for the privateStorage item: the environment
variable, when present, takes precedence over the config field. -/
def privateStorageClaimC9 (envPS : Option Str) (cfgPS : Option Bool) : Bool :=
  match envPS with
  | some v => v == str "true"
  | none => cfgPS.getD false

/-- Store for the C10 counterexample: private defaults, empty prefix. -/
def stC10 : Store := mkStore {} cfgPriv

/-! ## Theorems -/

/-- `Char.ofNat` at a valid scalar value round-trips through `toNat`. -/
theorem char_toNat_ofNat (n : Nat) (h : n.isValidChar) : (Char.ofNat n).toNat = n := by
  simp [Char.ofNat, h, Char.ofNatAux, Char.toNat, UInt32.toNat, BitVec.toNat_ofNatLt]

/-- Characters with equal scalar values are equal. -/
theorem char_eq_of_toNat (a b : Char) (h : a.toNat = b.toNat) : a = b :=
  Char.eq_of_val_eq (UInt32.ext h)

/-- On a lowercase ASCII letter, `toUpper` subtracts 32. -/
theorem toUpper_toNat_lower (c : Char) (h : 97 ≤ c.toNat ∧ c.toNat ≤ 122) :
    (Char.toUpper c).toNat = c.toNat - 32 := by
  have hv : (c.toNat - 32).isValidChar := by unfold Nat.isValidChar; left; omega
  simp only [Char.toUpper]
  rw [if_pos ⟨h.1, h.2⟩]
  exact char_toNat_ofNat _ hv

/-- Off the lowercase ASCII letters, `toUpper` is the identity. -/
theorem toUpper_eq_self (c : Char) (h : ¬ (97 ≤ c.toNat ∧ c.toNat ≤ 122)) :
    Char.toUpper c = c := by
  simp only [Char.toUpper]
  rw [if_neg h]

/-- On an uppercase ASCII letter, `toLower` adds 32. -/
theorem toLower_toNat_upper (c : Char) (h : 65 ≤ c.toNat ∧ c.toNat ≤ 90) :
    (Char.toLower c).toNat = c.toNat + 32 := by
  have hv : (c.toNat + 32).isValidChar := by unfold Nat.isValidChar; left; omega
  simp only [Char.toLower]
  rw [if_pos ⟨h.1, h.2⟩]
  exact char_toNat_ofNat _ hv

/-- Off the uppercase ASCII letters, `toLower` is the identity. -/
theorem toLower_eq_self (c : Char) (h : ¬ (65 ≤ c.toNat ∧ c.toNat ≤ 90)) :
    Char.toLower c = c := by
  simp only [Char.toLower]
  rw [if_neg h]

/-- Uppercasing is idempotent. -/
theorem toUpper_toUpper (c : Char) : Char.toUpper (Char.toUpper c) = Char.toUpper c := by
  by_cases h : 97 ≤ c.toNat ∧ c.toNat ≤ 122
  · apply toUpper_eq_self
    rw [toUpper_toNat_lower c h]
    omega
  · rw [toUpper_eq_self c h, toUpper_eq_self c h]

/-- Lowercasing after uppercasing is plain lowercasing. -/
theorem toLower_toUpper (c : Char) : Char.toLower (Char.toUpper c) = Char.toLower c := by
  by_cases h : 97 ≤ c.toNat ∧ c.toNat ≤ 122
  · have h1 := toUpper_toNat_lower c h
    rw [toLower_eq_self c (by omega)]
    apply char_eq_of_toNat
    rw [toLower_toNat_upper _ (by omega)]
    omega
  · rw [toUpper_eq_self c h]

/-- `UInt32` order is scalar order. -/
theorem uint32_le_iff (x y : UInt32) : (x ≤ y) ↔ x.toNat ≤ y.toNat := Iff.rfl

/-- `isAlphanum` as scalar ranges. -/
theorem isAlphanum_iff (c : Char) : c.isAlphanum = true ↔
    (65 ≤ c.toNat ∧ c.toNat ≤ 90) ∨ (97 ≤ c.toNat ∧ c.toNat ≤ 122) ∨
    (48 ≤ c.toNat ∧ c.toNat ≤ 57) := by
  simp only [Char.isAlphanum, Char.isAlpha, Char.isUpper, Char.isLower, Char.isDigit,
    Bool.or_eq_true, Bool.and_eq_true, decide_eq_true_eq, ge_iff_le, uint32_le_iff,
    show ((65 : UInt32)).toNat = 65 from rfl, show ((90 : UInt32)).toNat = 90 from rfl,
    show ((97 : UInt32)).toNat = 97 from rfl, show ((122 : UInt32)).toNat = 122 from rfl,
    show ((48 : UInt32)).toNat = 48 from rfl, show ((57 : UInt32)).toNat = 57 from rfl]
  tauto

/-- Character equality as scalar equality. -/
theorem char_eq_iff_toNat (c d : Char) : c = d ↔ c.toNat = d.toNat :=
  ⟨fun h => h ▸ rfl, char_eq_of_toNat c d⟩

/-- `wordChar` as scalar ranges. -/
theorem wordChar_iff (c : Char) : wordChar c = true ↔
    (65 ≤ c.toNat ∧ c.toNat ≤ 90) ∨ (97 ≤ c.toNat ∧ c.toNat ≤ 122) ∨
    (48 ≤ c.toNat ∧ c.toNat ≤ 57) ∨ c.toNat = 95 := by
  simp only [wordChar, Bool.or_eq_true, beq_iff_eq, isAlphanum_iff,
    char_eq_iff_toNat c '_', show ('_').toNat = 95 from rfl]
  tauto

/-- Uppercasing does not change whether a character is a word character. -/
theorem wordChar_toUpper (c : Char) : wordChar (Char.toUpper c) = wordChar c := by
  by_cases h : 97 ≤ c.toNat ∧ c.toNat ≤ 122
  · have h1 := toUpper_toNat_lower c h
    have l : wordChar (Char.toUpper c) = true := by rw [wordChar_iff]; omega
    have r : wordChar c = true := by rw [wordChar_iff]; omega
    rw [l, r]
  · rw [toUpper_eq_self c h]

/-- Uppercasing preserves being (or not being) a hyphen. -/
theorem toUpper_eq_dash_iff (c : Char) : Char.toUpper c = '-' ↔ c = '-' := by
  by_cases h : 97 ≤ c.toNat ∧ c.toNat ≤ 122
  · have h1 := toUpper_toNat_lower c h
    rw [char_eq_iff_toNat _ '-', char_eq_iff_toNat c '-',
      show ('-').toNat = 45 from rfl]
    omega
  · rw [toUpper_eq_self c h]

/-- Uppercasing preserves being (or not being) an underscore. -/
theorem toUpper_eq_underscore_iff (c : Char) : Char.toUpper c = '_' ↔ c = '_' := by
  by_cases h : 97 ≤ c.toNat ∧ c.toNat ≤ 122
  · have h1 := toUpper_toNat_lower c h
    rw [char_eq_iff_toNat _ '_', char_eq_iff_toNat c '_',
      show ('_').toNat = 95 from rfl]
    omega
  · rw [toUpper_eq_self c h]

/-- `toLower` sends a character to '/' only from '/' itself. -/
theorem toLower_eq_slash_iff (c : Char) : Char.toLower c = '/' ↔ c = '/' := by
  by_cases h : 65 ≤ c.toNat ∧ c.toNat ≤ 90
  · have h1 := toLower_toNat_upper c h
    rw [char_eq_iff_toNat _ '/', char_eq_iff_toNat c '/',
      show ('/').toNat = 47 from rfl]
    omega
  · rw [toLower_eq_self c h]

/-- `jsIndexOf` returns -1 or a genuine index. -/
theorem jsIndexOf_neg_one_or_nonneg (s : Str) (c : Char) :
    jsIndexOf s c = -1 ∨ 0 ≤ jsIndexOf s c := by
  induction s with
  | nil => left; rfl
  | cons x xs ih =>
    by_cases hx : x = c
    · right; simp [jsIndexOf, hx]
    · rcases ih with h | h
      · left; simp [jsIndexOf, hx, h]
      · right; simp only [jsIndexOf, if_neg hx]
        split
        · omega
        · omega

/-- `indexOf` hits 0 exactly when the first character matches. -/
theorem jsIndexOf_eq_zero_iff (s : Str) (c : Char) :
    jsIndexOf s c = 0 ↔ s.head? = some c := by
  cases s with
  | nil => simp [jsIndexOf]
  | cons x xs =>
    by_cases hx : x = c
    · simp [jsIndexOf, hx]
    · simp only [jsIndexOf, if_neg hx, List.head?_cons, Option.some.injEq]
      rcases jsIndexOf_neg_one_or_nonneg xs c with h | h
      · simp [h, hx]
      · rw [if_neg (by omega)]
        constructor
        · intro he; omega
        · intro he; exact absurd he hx

/-- `stripLeadingSlash` on a string not starting with a slash. -/
theorem stripLeadingSlash_of_head_ne (s : Str) (h : s.head? ≠ some '/') :
    stripLeadingSlash s = s := by
  rw [stripLeadingSlash, if_neg]
  rw [jsIndexOf_eq_zero_iff]
  exact h

/-- `stripLeadingSlash` drops one leading slash. -/
theorem stripLeadingSlash_cons_slash (xs : Str) :
    stripLeadingSlash ('/' :: xs) = xs := by
  rw [stripLeadingSlash, if_pos ((jsIndexOf_eq_zero_iff ('/' :: xs) '/').2 rfl)]
  rfl

/-- A string not beginning with two slashes keeps no leading slash once
`stripLeadingSlash` ran. -/
theorem stripLeadingSlash_head_of_not_double (s : Str)
    (h : jsStartsWith s (str "//") = false) :
    (stripLeadingSlash s).head? ≠ some '/' := by
  cases s with
  | nil => rw [stripLeadingSlash_of_head_ne [] (by simp)]; simp
  | cons x xs =>
    by_cases hx : x = '/'
    · subst hx
      rw [stripLeadingSlash_cons_slash]
      cases xs with
      | nil => simp
      | cons y ys =>
        by_cases hy : y = '/'
        · subst hy
          exact absurd h (by simp [jsStartsWith, str, List.isPrefixOf])
        · simp [hy]
    · rw [stripLeadingSlash_of_head_ne _ (by simp [hx])]
      simp [hx]

/-- `split('/')` always yields at least one part. -/
theorem splitSlash_ne_nil (s : Str) : splitSlash s ≠ [] := by
  cases s with
  | nil => simp [splitSlash]
  | cons c cs =>
    simp only [splitSlash]
    split
    · simp
    · cases hsp : splitSlash cs with
      | nil => simp
      | cons a as => simp

/-- Every part `split('/')` produces is slash-free. -/
theorem splitSlash_no_slash (s : Str) : ∀ p ∈ splitSlash s, '/' ∉ p := by
  induction s with
  | nil =>
    intro p hp
    simp only [splitSlash, List.mem_singleton] at hp
    simp [hp]
  | cons c cs ih =>
    intro p hp
    by_cases hc : c = '/'
    · simp only [splitSlash, if_pos hc, List.mem_cons] at hp
      rcases hp with hp | hp
      · simp [hp]
      · exact ih p hp
    · simp only [splitSlash, if_neg hc] at hp
      cases hsp : splitSlash cs with
      | nil =>
        rw [hsp] at hp
        simp only [List.mem_singleton] at hp
        subst hp
        simp only [List.mem_singleton]
        intro h
        exact hc h.symm
      | cons s0 ss =>
        rw [hsp] at hp
        simp only [List.mem_cons] at hp
        rcases hp with hp | hp
        · subst hp
          intro hmem
          rcases List.mem_cons.1 hmem with h | h
          · exact hc h.symm
          · refine ih s0 ?_ h
            rw [hsp]
            exact List.mem_cons_self s0 ss
        · refine ih p ?_
          rw [hsp]
          exact List.mem_cons_of_mem s0 hp

/-- Joining what splitting produced restores the string. -/
theorem joinSlash_splitSlash (s : Str) : joinSlash (splitSlash s) = s := by
  induction s with
  | nil => rfl
  | cons c cs ih =>
    by_cases hc : c = '/'
    · subst hc
      simp only [splitSlash, if_pos rfl]
      cases hsp : splitSlash cs with
      | nil => exact absurd hsp (splitSlash_ne_nil cs)
      | cons s0 ss =>
        show [] ++ '/' :: joinSlash (s0 :: ss) = '/' :: cs
        rw [← hsp, ih]
        rfl
    · simp only [splitSlash, if_neg hc]
      cases hsp : splitSlash cs with
      | nil => exact absurd hsp (splitSlash_ne_nil cs)
      | cons s0 ss =>
        rw [hsp] at ih
        cases ss with
        | nil =>
          show c :: s0 = c :: cs
          rw [show joinSlash [s0] = s0 from rfl] at ih
          rw [ih]
        | cons t ts =>
          show (c :: s0) ++ '/' :: joinSlash (t :: ts) = c :: cs
          rw [show joinSlash (s0 :: t :: ts) = s0 ++ '/' :: joinSlash (t :: ts) from rfl] at ih
          simp only [List.cons_append]
          rw [ih]

/-- The head of a '/'-join of parts whose first part is non-empty. -/
theorem joinSlash_head (p : Str) (ps : List Str) (hp : p ≠ []) :
    (joinSlash (p :: ps)).head? = p.head? := by
  cases ps with
  | nil => rfl
  | cons q qs =>
    show (p ++ '/' :: joinSlash (q :: qs)).head? = p.head?
    cases p with
    | nil => exact absurd rfl hp
    | cons x xs => rfl

/-- Resolved components are non-empty and slash-free. -/
theorem normComps_good (allow : Bool) : ∀ (cs acc : List Str),
    (∀ p ∈ acc, p ≠ [] ∧ '/' ∉ p) → (∀ p ∈ cs, '/' ∉ p) →
    ∀ q ∈ normComps allow acc cs, q ≠ [] ∧ '/' ∉ q := by
  intro cs
  induction cs with
  | nil => intro acc hacc _ q hq; exact hacc q hq
  | cons c cs ih =>
    intro acc hacc hcs q hq
    have hcsl : ∀ p ∈ cs, '/' ∉ p := fun p hp => hcs p (List.mem_cons_of_mem c hp)
    have hc : '/' ∉ c := hcs c (List.mem_cons_self c cs)
    by_cases h1 : c = [] ∨ c = str "."
    · rw [show normComps allow acc (c :: cs) = normComps allow acc cs from by
        simp only [normComps, if_pos h1]] at hq
      exact ih acc hacc hcsl q hq
    · by_cases h2 : c = str ".."
      · cases hlast : acc.getLast? with
        | some last =>
          by_cases hl : last = str ".."
          · rw [show normComps allow acc (c :: cs) = normComps allow (acc ++ [c]) cs from by
              simp only [normComps, if_neg h1, if_pos h2, hlast, if_pos hl]] at hq
            refine ih (acc ++ [c]) ?_ hcsl q hq
            intro p hp
            rcases List.mem_append.1 hp with h | h
            · exact hacc p h
            · rw [List.mem_singleton.1 h, h2]
              exact ⟨by simp [str], by simp [str]⟩
          · rw [show normComps allow acc (c :: cs) = normComps allow acc.dropLast cs from by
              simp only [normComps, if_neg h1, if_pos h2, hlast, if_neg hl]] at hq
            exact ih acc.dropLast (fun p hp => hacc p (List.dropLast_subset acc hp)) hcsl q hq
        | none =>
          by_cases ha : allow = true
          · rw [show normComps allow acc (c :: cs) = normComps allow [c] cs from by
              simp only [normComps, if_neg h1, if_pos h2, hlast, if_pos ha]] at hq
            refine ih [c] ?_ hcsl q hq
            intro p hp
            rw [List.mem_singleton.1 hp, h2]
            exact ⟨by simp [str], by simp [str]⟩
          · rw [show normComps allow acc (c :: cs) = normComps allow acc cs from by
              simp only [normComps, if_neg h1, if_pos h2, hlast, if_neg ha]] at hq
            exact ih acc hacc hcsl q hq
      · rw [show normComps allow acc (c :: cs) = normComps allow (acc ++ [c]) cs from by
          simp only [normComps, if_neg h1, if_neg h2]] at hq
        refine ih (acc ++ [c]) ?_ hcsl q hq
        intro p hp
        rcases List.mem_append.1 hp with h | h
        · exact hacc p h
        · rw [List.mem_singleton.1 h]
          refine ⟨?_, hc⟩
          intro hnil
          exact h1 (Or.inl hnil)

/-- The resolved interior never starts with a slash. -/
theorem normBody_head (p : Str) : (normBody p).head? ≠ some '/' := by
  rw [normBody]
  have hgood : ∀ q ∈ normComps (!(decide (p.head? = some '/'))) [] (splitSlash p),
      q ≠ [] ∧ '/' ∉ q :=
    normComps_good _ (splitSlash p) [] (by simp) (splitSlash_no_slash p)
  cases hcc : normComps (!(decide (p.head? = some '/'))) [] (splitSlash p) with
  | nil => simp [joinSlash]
  | cons c0 cc =>
    have h0 : c0 ≠ [] ∧ '/' ∉ c0 := by
      refine hgood c0 ?_
      rw [hcc]
      exact List.mem_cons_self c0 cc
    rw [joinSlash_head c0 cc h0.1]
    cases c0 with
    | nil => exact absurd rfl h0.1
    | cons y ys =>
      simp only [List.head?_cons, ne_eq, Option.some.injEq]
      intro hy
      refine h0.2 ?_
      rw [hy]
      exact List.mem_cons_self '/' ys

/-- After normalization the result carries at most one leading slash. -/
theorem stripLeadingSlash_posixNormalize_head (p : Str) :
    (stripLeadingSlash (posixNormalize p)).head? ≠ some '/' := by
  rw [posixNormalize]
  by_cases hp : p = []
  · rw [if_pos hp, stripLeadingSlash_of_head_ne _ (by simp [str])]
    simp [str]
  · rw [if_neg hp]
    by_cases hbody : normBody p = []
    · rw [if_pos hbody]
      by_cases habs : p.head? = some '/'
      · rw [if_pos habs]
        rw [show (str "/") = '/' :: ([] : Str) from rfl, stripLeadingSlash_cons_slash]
        simp
      · rw [if_neg habs]
        by_cases htr : p.getLast? = some '/'
        · rw [if_pos htr, stripLeadingSlash_of_head_ne _ (by simp [str])]
          simp [str]
        · rw [if_neg htr, stripLeadingSlash_of_head_ne _ (by simp [str])]
          simp [str]
    · rw [if_neg hbody]
      have hmid : (normBody p ++ (if p.getLast? = some '/' then ['/'] else [])).head? ≠
          some '/' := by
        rw [List.head?_append]
        cases hcc : (normBody p).head? with
        | none => exact absurd (List.head?_eq_none_iff.1 hcc) hbody
        | some z =>
          simp only [Option.or_some, ne_eq, Option.some.injEq]
          intro hz
          subst hz
          exact normBody_head p hcc
      by_cases habs : p.head? = some '/'
      · rw [if_pos habs]
        rw [show (['/'] ++ normBody p ++ (if p.getLast? = some '/' then ['/'] else [])) =
          '/' :: (normBody p ++ (if p.getLast? = some '/' then ['/'] else [])) from by simp,
          stripLeadingSlash_cons_slash]
        exact hmid
      · rw [if_neg habs]
        rw [show (([] : Str) ++ normBody p ++ (if p.getLast? = some '/' then ['/'] else [])) =
          normBody p ++ (if p.getLast? = some '/' then ['/'] else []) from by simp]
        rw [stripLeadingSlash_of_head_ne _ hmid]
        exact hmid

/-- The key `exists` and `delete` derive from any directory and file name never
starts with a slash. -/
theorem stripLeadingSlash_posixJoin_head (a b : Str) :
    (stripLeadingSlash (posixJoin a b)).head? ≠ some '/' := by
  rw [posixJoin]
  split
  · rw [stripLeadingSlash_of_head_ne _ (by simp [str])]
    simp [str]
  · split
    · exact stripLeadingSlash_posixNormalize_head b
    · split
      · exact stripLeadingSlash_posixNormalize_head a
      · exact stripLeadingSlash_posixNormalize_head _

/-- The second pass over the first pass's output is the fused scan. -/
theorem upperAfterDash_upperAtBoundary (s : Str) :
    ∀ prevWord avail, upperAfterDash avail (upperAtBoundary prevWord s) =
      titleScan prevWord avail s := by
  induction s with
  | nil => intro pw av; rfl
  | cons c cs ih =>
    intro pw av
    have hd : (Char.toUpper c == '-') = (c == '-') := by
      rw [Bool.eq_iff_iff]
      simp only [beq_iff_eq]
      exact toUpper_eq_dash_iff c
    have hu : (Char.toUpper c == '_') = (c == '_') := by
      rw [Bool.eq_iff_iff]
      simp only [beq_iff_eq]
      exact toUpper_eq_underscore_iff c
    simp only [upperAtBoundary, upperAfterDash, titleScan]
    cases hw : wordChar c <;> cases pw <;> cases av <;>
      simp [hw, wordChar_toUpper, toUpper_toUpper, hd, hu, ih]

/-- The first pass only changes letter case. -/
theorem jsToLower_upperAtBoundary (s : Str) :
    ∀ pw, jsToLower (upperAtBoundary pw s) = jsToLower s := by
  induction s with
  | nil => intro pw; rfl
  | cons c cs ih =>
    intro pw
    simp only [upperAtBoundary]
    show Char.toLower (if wordChar c && !pw then Char.toUpper c else c) ::
        jsToLower (upperAtBoundary (wordChar c) cs) =
      Char.toLower c :: jsToLower cs
    rw [ih]
    congr 1
    split
    · exact toLower_toUpper c
    · rfl

/-- The second pass only changes letter case. -/
theorem jsToLower_upperAfterDash (s : Str) :
    ∀ av, jsToLower (upperAfterDash av s) = jsToLower s := by
  induction s with
  | nil => intro av; rfl
  | cons c cs ih =>
    intro av
    simp only [upperAfterDash]
    split
    · show Char.toLower (Char.toUpper c) :: jsToLower (upperAfterDash false cs) =
        Char.toLower c :: jsToLower cs
      rw [ih, toLower_toUpper]
    · show Char.toLower c :: jsToLower (upperAfterDash (c == '-' || c == '_') cs) =
        Char.toLower c :: jsToLower cs
      rw [ih]

/-- Lowercasing distributes over the '/'-join. -/
theorem jsToLower_joinSlash (ps : List Str) :
    jsToLower (joinSlash ps) = joinSlash (ps.map jsToLower) := by
  induction ps with
  | nil => rfl
  | cons p ps ih =>
    cases ps with
    | nil => rfl
    | cons q qs =>
      show jsToLower (p ++ '/' :: joinSlash (q :: qs)) =
        jsToLower p ++ '/' :: joinSlash ((q :: qs).map jsToLower)
      rw [show jsToLower (p ++ '/' :: joinSlash (q :: qs)) =
        jsToLower p ++ jsToLower ('/' :: joinSlash (q :: qs)) from
          List.map_append Char.toLower p ('/' :: joinSlash (q :: qs))]
      rw [show jsToLower ('/' :: joinSlash (q :: qs)) =
        '/' :: jsToLower (joinSlash (q :: qs)) from rfl]
      rw [ih]

/-- The C1 witness backend is consistent: what `headObject` reports present,
`getObject` can fetch. -/
theorem beW1_consist : ∀ r : KeyReq, beW1.headOk r = true → ∃ d, beW1.getObject r = .ok d := by
  intro r h
  by_cases hk : r.Key = str "Img-X.Jpg"
  · exact ⟨{ headers := some [], Body := some (str "BODY") }, by simp [beW1, hk]⟩
  · exact absurd h (by simp [COSBackend.headOk, beW1, hk])

/-- C1 (corrected). With pathPrefix "a/b/" and request "/x.jpg" the code
fetches key "a/b//x.jpg" (the first slash of the prefix is not its last
character, so `stripEndingSlash` strips nothing), while the claim's primary
key is "a/b/x.jpg"; against a backend holding exactly "a/b/x.jpg" the code
responds 404 with the fetch error although the claim's algorithm serves the
object. -/
theorem C1_counterexample :
    Store.serve stC1 beC1 (str "/x.jpg") = .notFound (str "NoSuchKey") ∧
    serveClaimC1 stC1 beC1 (str "/x.jpg") = .sent [] (str "BODY") := by
  decide

/-- C1 (amended): when the initial fetch of the primary key
(`stripLeadingSlash(stripEndingSlash(pathPrefix) + path)`, where
`stripEndingSlash` removes the final character only when the first slash of
the prefix is its last) fails, serve tries exactly the ordered variant list
[primary key, title-case reconstruction] with a metadata-only lookup,
stopping at the first hit (`tryKeyVariations` is first-match search); with no
hit it sets 404 and forwards the original fetch error; with a hit, and a
backend whose fetches are consistent with its metadata lookups, it fetches
that variant's full object and serves it through `sendFileResponse`. -/
theorem C1_theorem (st : Store) (be : COSBackend) (reqPath e : Str)
    (hfail : be.getObject { Bucket := st.bucket, Region := st.region, Key := st.serveKey reqPath } = .error e)
    (hconsist : ∀ r : KeyReq, be.headOk r = true → ∃ d, be.getObject r = .ok d) :
    (∀ ks : List Str, st.tryKeyVariations be ks =
      ks.find? fun v => be.headOk { Bucket := st.bucket, Region := st.region, Key := v }) ∧
    (([st.serveKey reqPath, reconstructOriginalCase (st.serveKey reqPath)].find? (fun v =>
        be.headOk { Bucket := st.bucket, Region := st.region, Key := v })) = none →
      st.serve be reqPath = .notFound e) ∧
    (∀ v, ([st.serveKey reqPath, reconstructOriginalCase (st.serveKey reqPath)].find? (fun v =>
        be.headOk { Bucket := st.bucket, Region := st.region, Key := v })) = some v →
      ∃ d, be.getObject { Bucket := st.bucket, Region := st.region, Key := v } = .ok d ∧
        st.serve be reqPath = sendFileResponse d) := by
  have hfind : ∀ ks : List Str, st.tryKeyVariations be ks =
      ks.find? fun v => be.headOk { Bucket := st.bucket, Region := st.region, Key := v } := by
    intro ks
    induction ks with
    | nil => rfl
    | cons k rest ih =>
      simp only [Store.tryKeyVariations, List.find?]
      cases hh : be.headObject { Bucket := st.bucket, Region := st.region, Key := k } with
      | ok u => simp [COSBackend.headOk, hh]
      | error er => simp [COSBackend.headOk, hh, ih]
  refine ⟨hfind, ?_, ?_⟩
  · intro hnone
    simp only [Store.serve, hfail, hfind, hnone]
  · intro v hsome
    have hv := List.find?_some hsome
    obtain ⟨d, hd⟩ := hconsist _ hv
    refine ⟨d, hd, ?_⟩
    simp only [Store.serve, hfail, hfind, hsome, hd]

/-- C1 witness: a concrete store and backend where the primary fetch fails
and the reconstruction variant hits. -/
theorem C1_witness : Store.serve stW1 beW1 (str "/img-x.jpg") = .sent [] (str "BODY") := by
  obtain ⟨d, hd, hs⟩ := (C1_theorem stW1 beW1 (str "/img-x.jpg") (str "NoSuchKey")
    (by decide) beW1_consist).2.2 (str "Img-X.Jpg") (by decide)
  have hD : beW1.getObject { Bucket := stW1.bucket, Region := stW1.region, Key := str "Img-X.Jpg" } =
      .ok { headers := some [], Body := some (str "BODY") } := by decide
  rw [hs]
  have h3 := hD.symm.trans hd
  injection h3 with h4
  rw [← h4]
  rfl

/-- In public mode `mkHost` always yields a host: explicit when truthy, else
the computed one. -/
theorem mkHost_public (eh : Option Str) (ch : Str) :
    mkHost false eh ch = some (jsOrDefault eh ch) := by
  rw [mkHost.eq_def, if_neg (by simp)]
  cases eh with
  | none => rfl
  | some v =>
    by_cases hv : v = []
    · simp [jsOrDefault, hv]
    · simp [jsOrDefault, hv]

/-- In public mode the constructor always sets a host. -/
theorem mkStore_host_of_public (env : EnvVars) (cfg : COSConfig)
    (hp : (mkStore env cfg).privateStorage = false) :
    ∃ h, (mkStore env cfg).host = some h := by
  have hps : resolvePrivateStorage env cfg = false := hp
  have hh : (mkStore env cfg).host =
      mkHost false (resolveAssetHost env cfg) (computedHost env cfg) := by
    show mkHost (resolvePrivateStorage env cfg) _ _ = _
    rw [hps]
  rw [hh, mkHost_public]
  exact ⟨_, rfl⟩

/-- C2 (confirmed): on upload success, save returns the relative URL
`/{pathPrefix + '/' if non-empty}{lowercased fileName}` exactly in the
private-mode-without-host configuration; with a host set it returns
`{host}/{lowercased fileName}`; and every other constructor-produced
configuration (privateStorage off) does have a host set. The relative URL is
built from the path prefix and lowercased file name alone - no host value
exists in that configuration to appear in it. -/
theorem C2_theorem (env : EnvVars) (cfg : COSConfig) (be : COSBackend)
    (fileName body contentType : Str)
    (hput : be.putObject ((mkStore env cfg).savePut fileName contentType body) = .ok ()) :
    ((mkStore env cfg).privateStorage = true ∧ (mkStore env cfg).host = none →
      Store.save (mkStore env cfg) be fileName (.ok body) contentType =
        .ok ('/' :: ((if (mkStore env cfg).pathPrefix ≠ [] then
          (mkStore env cfg).pathPrefix ++ ['/'] else []) ++ jsToLower fileName))) ∧
    (∀ h, (mkStore env cfg).host = some h →
      Store.save (mkStore env cfg) be fileName (.ok body) contentType =
        .ok (h ++ '/' :: jsToLower fileName)) ∧
    ((mkStore env cfg).privateStorage = false → ∃ h, (mkStore env cfg).host = some h) := by
  refine ⟨?_, ?_, mkStore_host_of_public env cfg⟩
  · intro hcond
    simp only [Store.save, hput]
    rw [if_pos hcond]
  · intro h hh
    simp only [Store.save, hput]
    rw [if_neg (by rw [hh]; rintro ⟨_, hc⟩; exact Option.noConfusion hc), hh]
    rfl

/-- C2 witness: the scenario save("Photo.JPG") in private mode without host
returns "/photo.jpg". -/
theorem C2_witness :
    Store.save (mkStore {} cfgPriv) bePutOk (str "Photo.JPG") (.ok (str "BYTES"))
      (str "image/jpeg") = .ok (str "/photo.jpg") := by
  have h := (C2_theorem {} cfgPriv bePutOk (str "Photo.JPG") (str "BYTES") (str "image/jpeg")
    (by decide)).1 ⟨by decide, by decide⟩
  exact h.trans (by decide)

/-- C3 (confirmed): the constructor's host equals the claim's four-case
policy, and the claim's example resolves to the bucket-region endpoint. -/
theorem C3_theorem (env : EnvVars) (cfg : COSConfig) :
    (mkStore env cfg).host = hostClaimC3 env cfg ∧
    (mkStore {} cfgC3ex).host = some (str "https://b.cos.ap-1.myqcloud.com") := by
  constructor
  · show mkHost (resolvePrivateStorage env cfg) (resolveAssetHost env cfg)
      (computedHost env cfg) = _
    rw [mkHost.eq_def, hostClaimC3]
    cases hps : resolvePrivateStorage env cfg with
    | false =>
      cases heh : resolveAssetHost env cfg with
      | none => simp
      | some v =>
        by_cases hv : v = []
        · simp [hv]
        · simp [hv]
    | true =>
      simp only [Bool.true_and, if_pos rfl]
      cases heh : resolveAssetHost env cfg with
      | none => simp [blankHost]
      | some v =>
        by_cases htr : jsTrim v = []
        · simp [blankHost, htr]
        · have hv : v ≠ [] := by
            intro h
            rw [h] at htr
            exact htr rfl
          simp [blankHost, htr, hv]
  · decide

/-- C4 (corrected). The single-segment key "cat-dog.jpg.bak" does not end in
a recognized extension, so the claim's transformation leaves it unchanged;
the code tests containment (`includes`), transforms it, and moreover
uppercases the letters after the dots (the regex boundary `\b\w` matches
there), producing "Cat-Dog.Jpg.Bak". -/
theorem C4_counterexample :
    reconstructOriginalCase (str "cat-dog.jpg.bak") = str "Cat-Dog.Jpg.Bak" ∧
    endsInImageExtC4 (str "cat-dog.jpg.bak") = false ∧
    splitSlash (str "cat-dog.jpg.bak") = [str "cat-dog.jpg.bak"] := by
  decide

/-- C4 (amended): the heuristic splits on '/', leaves every segment not
CONTAINING '.jpg', '.png' or '.gif' unchanged, and rewrites each containing
segment by the single fused scan `titleScan`: a character is uppercased
exactly when it is a word character (letter, digit or underscore) at the
segment start or after any non-word character - including the extension
dots - or a word character consumed by a directly preceding unspent hyphen
or underscore; the rewrite changes letter case only. -/
theorem C4_theorem (key : Str) :
    reconstructOriginalCase key =
      joinSlash ((splitSlash key).map fun part =>
        if hasImageExt part then titleScan false false part else part) ∧
    ((∀ p ∈ splitSlash key, hasImageExt p = false) → reconstructOriginalCase key = key) ∧
    jsToLower (reconstructOriginalCase key) = jsToLower key := by
  refine ⟨?_, ?_, ?_⟩
  · rw [reconstructOriginalCase]
    congr 1
    apply List.map_congr_left
    intro p _
    by_cases h : hasImageExt p = true
    · rw [if_pos h, if_pos h, upperAfterDash_upperAtBoundary]
    · rw [if_neg h, if_neg h]
  · intro hall
    rw [reconstructOriginalCase]
    have h2 : ((splitSlash key).map fun part =>
        if hasImageExt part then upperAfterDash false (upperAtBoundary false part)
        else part) = (splitSlash key).map id :=
      List.map_congr_left (fun p hp => by
        rw [if_neg (by simp [hall p hp])]
        rfl)
    rw [h2, List.map_id, joinSlash_splitSlash]
  · rw [reconstructOriginalCase, jsToLower_joinSlash, List.map_map]
    have h2 : ((splitSlash key).map (jsToLower ∘ fun part =>
        if hasImageExt part then upperAfterDash false (upperAtBoundary false part)
        else part)) = (splitSlash key).map jsToLower := by
      apply List.map_congr_left
      intro p _
      simp only [Function.comp_apply]
      by_cases h : hasImageExt p = true
      · rw [if_pos h, jsToLower_upperAfterDash, jsToLower_upperAtBoundary]
      · rw [if_neg h]
    rw [h2, ← jsToLower_joinSlash, joinSlash_splitSlash]

/-- C4 witness: a key with no extension-bearing segment passes through
unchanged. -/
theorem C4_witness :
    reconstructOriginalCase (str "notes.txt/readme") = str "notes.txt/readme" :=
  (C4_theorem (str "notes.txt/readme")).2.1 (by decide)

/-- C5 (confirmed): `exists` and `delete` are total boolean functions of the
one backend call they make - the embedding returns `Bool`, never an error:
the promise resolves `true` exactly on a successful call and `false` on any
error, including not-found. -/
theorem C5_theorem (st : Store) (be : COSBackend) (gtd fileName targetDir : Str) :
    (Store.exists st be fileName targetDir = true ↔
      be.headObject { Bucket := st.bucket, Region := st.region, Key := Store.existsKey fileName targetDir } = .ok ()) ∧
    (Store.delete st be gtd fileName targetDir = true ↔
      be.deleteObject { Bucket := st.bucket, Region := st.region, Key := Store.deleteKey gtd fileName targetDir } = .ok ()) := by
  refine ⟨?_, ?_⟩
  · simp only [Store.exists]
    cases h : be.headObject { Bucket := st.bucket, Region := st.region, Key := Store.existsKey fileName targetDir } with
    | ok u => cases u; simp
    | error e => simp
  · simp only [Store.delete]
    cases h : be.deleteObject { Bucket := st.bucket, Region := st.region, Key := Store.deleteKey gtd fileName targetDir } with
    | ok u => cases u; simp
    | error e => simp

/-- C6 (confirmed, for configurations with a host set - spec section 9 leaves
the hostless private mode an open question): `read` rejects with the
not-managed error exactly when the cleaned path does not start with the host
(and the result then does not depend on the backend, i.e. no fetch is
issued); otherwise it fetches the key obtained by dropping the host prefix
and one leading slash, returning the raw body and surfacing a transport
failure as the fetch error. -/
theorem C6_theorem (st : Store) (be : COSBackend) (optionsPath : Option Str) (host : Str)
    (hhost : st.host = some host) :
    (jsStartsWith (stripTrailingSlashOrBackslash (optionsPath.getD [])) host = false →
      Store.read st be optionsPath =
        .notManaged (stripTrailingSlashOrBackslash (optionsPath.getD []) ++ str " is not stored in COS")) ∧
    (jsStartsWith (stripTrailingSlashOrBackslash (optionsPath.getD [])) host = true →
      Store.read st be optionsPath =
        (match be.getObject { Bucket := st.bucket, Region := st.region, Key := stripLeadingSlash ((stripTrailingSlashOrBackslash (optionsPath.getD [])).drop host.length) } with
         | .error e => ReadResult.fetchErr e
         | .ok d => ReadResult.ok d.Body)) ∧
    (∀ m, Store.read st be optionsPath = .notManaged m →
      jsStartsWith (stripTrailingSlashOrBackslash (optionsPath.getD [])) host = false) := by
  refine ⟨?_, ?_, ?_⟩
  · intro hns
    simp only [Store.read, hhost, hns]
    rfl
  · intro hs
    simp only [Store.read, hhost, hs]
    rfl
  · intro m hm
    cases hsw : jsStartsWith (stripTrailingSlashOrBackslash (optionsPath.getD [])) host with
    | false => rfl
    | true =>
      exfalso
      simp only [Store.read, hhost, hsw] at hm
      cases hg : be.getObject { Bucket := st.bucket, Region := st.region, Key := stripLeadingSlash ((stripTrailingSlashOrBackslash (optionsPath.getD [])).drop host.length) } with
      | ok d => rw [hg] at hm; exact ReadResult.noConfusion hm
      | error e => rw [hg] at hm; exact ReadResult.noConfusion hm

/-- C6 witness: a path outside the host is rejected as not managed. -/
theorem C6_witness :
    Store.read stC6 bePutOk (some (str "https://other/x")) =
      .notManaged (str "https://other/x is not stored in COS") := by
  have h := (C6_theorem stC6 bePutOk (some (str "https://other/x"))
    (str "https://b.cos.r.myqcloud.com") (by decide)).1 (by decide)
  exact h.trans (by decide)

/-- C7 (code_bug). Header copy and body write behave as claimed, but for a
body-less fetched object `sendFileResponse` sets status 404 and then
evaluates `next(new Error('File not found'))` with `next` not in scope - a
ReferenceError is thrown instead of the not-found error reaching the
caller's error pipeline (the earlier inline version of this handler closed
over `next` and called it; the extraction into `sendFileResponse(res, data)`
lost it). -/
theorem C7_theorem :
    sendFileResponse { headers := some [(str "content-type", str "image/jpeg")], Body := none } =
      .refErrorNoBody [(str "content-type", str "image/jpeg")] ∧
    (∀ hs b, sendFileResponse { headers := some hs, Body := some b } = .sent hs b) ∧
    (∀ d : GetObjectData, ∀ b, d.Body = some b →
      sendFileResponse d = .sent (d.headers.getD []) b) := by
  refine ⟨by decide, fun hs b => rfl, fun d b hb => by simp only [sendFileResponse, hb]⟩

/-- C8 (confirmed): `save` uploads under the key equal to the lowercased
generated name stripped of a leading slash, with the declared content type
and the fixed `max-age=2592000` cache control; the spec's scenario stores
"Photo.JPG" under key "photo.jpg" and returns "/photo.jpg". -/
theorem C8_theorem (st : Store) (fileName contentType body : Str) :
    (st.savePut fileName contentType body).Key = stripLeadingSlash (jsToLower fileName) ∧
    (st.savePut fileName contentType body).CacheControl = str "max-age=2592000" ∧
    (st.savePut fileName contentType body).ContentType = contentType ∧
    (stC8.savePut (str "Photo.JPG") contentType body).Key = str "photo.jpg" ∧
    Store.save stC8 bePutOk (str "Photo.JPG") (.ok (str "BYTES")) (str "image/jpeg") =
      .ok (str "/photo.jpg") := by
  refine ⟨rfl, ?_, rfl, ?_, by decide⟩
  · show str "max-age=" ++ (Nat.repr (30 * 24 * 60 * 60)).data = str "max-age=2592000"
    decide
  · show stripLeadingSlash (jsToLower (str "Photo.JPG")) = str "photo.jpg"
    decide

/-- C9 (corrected). With the environment variable set to "false" and the
config field true, the claim resolves privateStorage from the environment
(not enabled), but the code's `env === 'true' || config || false` lets the
config win: the constructed store has privateStorage on. -/
theorem C9_counterexample :
    (mkStore { privateStorage := some (str "false") }
      { privateStorage := some true }).privateStorage = true ∧
    privateStorageClaimC9 (some (str "false")) (some true) = false := by
  decide

/-- C9 (amended): for the string items a NONEMPTY environment variable takes
precedence, an unset or empty one falls through to the config field and then
the default ("https:" for protocol, empty for pathPrefix and domain, nothing
for the four required items), with pathPrefix additionally stripped of one
leading slash; for privateStorage and debug the environment wins only when
it is exactly "true" - any other environment value falls through to the
config field's truthiness. -/
theorem C9_theorem (env : EnvVars) (cfg : COSConfig) :
    (∀ v, env.secretId = some v → v ≠ [] → (mkStore env cfg).secretId = some v) ∧
    ((env.secretId = none ∨ env.secretId = some []) → (mkStore env cfg).secretId = cfg.secretId) ∧
    (∀ v, env.secretKey = some v → v ≠ [] → (mkStore env cfg).secretKey = some v) ∧
    ((env.secretKey = none ∨ env.secretKey = some []) → (mkStore env cfg).secretKey = cfg.secretKey) ∧
    (∀ v, env.bucket = some v → v ≠ [] → (mkStore env cfg).bucket = some v) ∧
    ((env.bucket = none ∨ env.bucket = some []) → (mkStore env cfg).bucket = cfg.bucket) ∧
    (∀ v, env.region = some v → v ≠ [] → (mkStore env cfg).region = some v) ∧
    ((env.region = none ∨ env.region = some []) → (mkStore env cfg).region = cfg.region) ∧
    (∀ v, env.pathPrefix = some v → v ≠ [] → (mkStore env cfg).pathPrefix = stripLeadingSlash v) ∧
    ((env.pathPrefix = none ∨ env.pathPrefix = some []) → ∀ w, cfg.pathPrefix = some w → w ≠ [] →
      (mkStore env cfg).pathPrefix = stripLeadingSlash w) ∧
    ((env.pathPrefix = none ∨ env.pathPrefix = some []) →
      (cfg.pathPrefix = none ∨ cfg.pathPrefix = some []) → (mkStore env cfg).pathPrefix = []) ∧
    (∀ v, env.domain = some v → v ≠ [] → (mkStore env cfg).domain = v) ∧
    ((env.domain = none ∨ env.domain = some []) → ∀ w, cfg.domain = some w → w ≠ [] →
      (mkStore env cfg).domain = w) ∧
    ((env.domain = none ∨ env.domain = some []) →
      (cfg.domain = none ∨ cfg.domain = some []) → (mkStore env cfg).domain = []) ∧
    (∀ v, env.protocol = some v → v ≠ [] → (mkStore env cfg).protocol = v) ∧
    ((env.protocol = none ∨ env.protocol = some []) → ∀ w, cfg.protocol = some w → w ≠ [] →
      (mkStore env cfg).protocol = w) ∧
    ((env.protocol = none ∨ env.protocol = some []) →
      (cfg.protocol = none ∨ cfg.protocol = some []) → (mkStore env cfg).protocol = str "https:") ∧
    (env.privateStorage = some (str "true") → (mkStore env cfg).privateStorage = true) ∧
    (env.privateStorage ≠ some (str "true") →
      (mkStore env cfg).privateStorage = cfg.privateStorage.getD false) ∧
    (env.debug = some (str "true") → (mkStore env cfg).debug = true) ∧
    (env.debug ≠ some (str "true") → (mkStore env cfg).debug = cfg.debug.getD false) ∧
    (∀ v, env.assetHost = some v → v ≠ [] → resolveAssetHost env cfg = some v) ∧
    ((env.assetHost = none ∨ env.assetHost = some []) → resolveAssetHost env cfg = cfg.assetHost) := by
  have hot : ∀ (v : Str) (b : Option Str), v ≠ [] → jsOrOpt (some v) b = some v := by
    intro v b hv
    simp [jsOrOpt, hv]
  have hof : ∀ (a b : Option Str), (a = none ∨ a = some []) → jsOrOpt a b = b := by
    intro a b ha
    rcases ha with h | h <;> simp [jsOrOpt, h]
  have hdt : ∀ (v d : Str), v ≠ [] → jsOrDefault (some v) d = v := by
    intro v d hv
    simp [jsOrDefault, hv]
  have hdf : ∀ (a : Option Str) (d : Str), (a = none ∨ a = some []) → jsOrDefault a d = d := by
    intro a d ha
    rcases ha with h | h <;> simp [jsOrDefault, h]
  refine ⟨?_, ?_, ?_, ?_, ?_, ?_, ?_, ?_, ?_, ?_, ?_, ?_, ?_, ?_, ?_, ?_, ?_, ?_, ?_, ?_, ?_, ?_, ?_⟩
  · intro v hv hne
    show jsOrOpt env.secretId cfg.secretId = some v
    rw [hv, hot v _ hne]
  · intro h
    exact hof _ _ h
  · intro v hv hne
    show jsOrOpt env.secretKey cfg.secretKey = some v
    rw [hv, hot v _ hne]
  · intro h
    exact hof _ _ h
  · intro v hv hne
    show jsOrOpt env.bucket cfg.bucket = some v
    rw [hv, hot v _ hne]
  · intro h
    exact hof _ _ h
  · intro v hv hne
    show jsOrOpt env.region cfg.region = some v
    rw [hv, hot v _ hne]
  · intro h
    exact hof _ _ h
  · intro v hv hne
    show stripLeadingSlash (jsOrDefault (jsOrOpt env.pathPrefix cfg.pathPrefix) []) =
      stripLeadingSlash v
    rw [hv, hot v _ hne, hdt v _ hne]
  · intro h w hw hwne
    show stripLeadingSlash (jsOrDefault (jsOrOpt env.pathPrefix cfg.pathPrefix) []) =
      stripLeadingSlash w
    rw [hof _ _ h, hw, hdt w _ hwne]
  · intro h hc
    show stripLeadingSlash (jsOrDefault (jsOrOpt env.pathPrefix cfg.pathPrefix) []) = []
    rw [hof _ _ h, hdf _ _ hc]
    decide
  · intro v hv hne
    show jsOrDefault (jsOrOpt env.domain cfg.domain) [] = v
    rw [hv, hot v _ hne, hdt v _ hne]
  · intro h w hw hwne
    show jsOrDefault (jsOrOpt env.domain cfg.domain) [] = w
    rw [hof _ _ h, hw, hdt w _ hwne]
  · intro h hc
    show jsOrDefault (jsOrOpt env.domain cfg.domain) [] = []
    rw [hof _ _ h, hdf _ _ hc]
  · intro v hv hne
    show jsOrDefault (jsOrOpt env.protocol cfg.protocol) (str "https:") = v
    rw [hv, hot v _ hne, hdt v _ hne]
  · intro h w hw hwne
    show jsOrDefault (jsOrOpt env.protocol cfg.protocol) (str "https:") = w
    rw [hof _ _ h, hw, hdt w _ hwne]
  · intro h hc
    show jsOrDefault (jsOrOpt env.protocol cfg.protocol) (str "https:") = str "https:"
    rw [hof _ _ h, hdf _ _ hc]
  · intro h
    show resolvePrivateStorage env cfg = true
    rw [resolvePrivateStorage, h]
    simp
  · intro h
    show resolvePrivateStorage env cfg = cfg.privateStorage.getD false
    rw [resolvePrivateStorage, decide_eq_false h]
    simp
  · intro h
    show (decide (env.debug = some (str "true")) || cfg.debug.getD false) = true
    rw [h]
    simp
  · intro h
    show (decide (env.debug = some (str "true")) || cfg.debug.getD false) = cfg.debug.getD false
    rw [decide_eq_false h]
    simp
  · intro v hv hne
    show jsOrOpt env.assetHost cfg.assetHost = some v
    rw [hv, hot v _ hne]
  · intro h
    show jsOrOpt env.assetHost cfg.assetHost = cfg.assetHost
    exact hof _ _ h

/-- C10 (corrected). `stripLeadingSlash` removes exactly one slash: a
generated file name beginning with two slashes produces an upload key that
still carries a leading slash. -/
theorem C10_counterexample :
    (stC10.savePut (str "//A.jpg") (str "image/jpeg") (str "B")).Key = str "/a.jpg" ∧
    (str "/a.jpg").head? = some '/' := by
  decide

/-- Matching '/' against a lowercased character is matching it against the
original. -/
theorem beq_slash_toLower (c : Char) : ('/' == Char.toLower c) = ('/' == c) := by
  rw [Bool.eq_iff_iff]
  simp only [beq_iff_eq]
  constructor
  · intro h
    exact ((toLower_eq_slash_iff c).1 h.symm).symm
  · intro h
    rw [← h]
    rfl

/-- Lowercasing does not affect whether a string starts with two slashes. -/
theorem jsStartsWith_double_toLower (f : Str) :
    jsStartsWith (jsToLower f) (str "//") = jsStartsWith f (str "//") := by
  cases f with
  | nil => rfl
  | cons c t =>
    cases t with
    | nil =>
      show (('/' == Char.toLower c) && List.isPrefixOf ['/'] ([] : Str)) =
        (('/' == c) && List.isPrefixOf ['/'] ([] : Str))
      rw [beq_slash_toLower]
    | cons d u =>
      show (('/' == Char.toLower c) && (('/' == Char.toLower d) &&
          List.isPrefixOf ([] : Str) (jsToLower u))) =
        (('/' == c) && (('/' == d) && List.isPrefixOf ([] : Str) u))
      have hnil : ∀ (x : Str), List.isPrefixOf ([] : Str) x = true := by
        intro x
        cases x <;> rfl
      rw [beq_slash_toLower, beq_slash_toLower, hnil, hnil]

/-- C10 (amended): the keys `exists` and `delete` hand to the client never
start with a slash (the path join collapses repeated separators first); the
keys `save` and `serve` hand over never start with a slash PROVIDED the file
name, resp. the prefix-plus-path concatenation, does not begin with two
slashes - `stripLeadingSlash` removes exactly one. -/
theorem C10_theorem (st : Store) (gtd fileName targetDir contentType body reqPath : Str) :
    ((Store.existsKey fileName targetDir).head? ≠ some '/') ∧
    ((Store.deleteKey gtd fileName targetDir).head? ≠ some '/') ∧
    (jsStartsWith fileName (str "//") = false →
      ((st.savePut fileName contentType body).Key).head? ≠ some '/') ∧
    (jsStartsWith (stripEndingSlash st.pathPrefix ++ reqPath) (str "//") = false →
      (st.serveKey reqPath).head? ≠ some '/') := by
  refine ⟨stripLeadingSlash_posixJoin_head _ _, stripLeadingSlash_posixJoin_head _ _, ?_, ?_⟩
  · intro h
    show (stripLeadingSlash (jsToLower fileName)).head? ≠ some '/'
    apply stripLeadingSlash_head_of_not_double
    rw [jsStartsWith_double_toLower]
    exact h
  · intro h
    exact stripLeadingSlash_head_of_not_double _ h

/-- C10 witness: a concrete absolute directory and file name produce a
slash-free key for the metadata lookup. -/
theorem C10_witness : (Store.existsKey (str "img.png") (str "/2024/03")).head? ≠ some '/' :=
  (C10_theorem stC10 (str "d") (str "img.png") (str "/2024/03") (str "t") (str "B")
    (str "/p")).1

end GhostCOS

